import Mathlib

/-!
Verification of the adaptive proof-of-work gate of `tinycomments`
(`server/src/pow.rs` and the `get_pow` route of `server/src/main.rs`).

Modelling conventions:
* `std::time::Instant` values are modelled as natural numbers of seconds on a
  monotone clock; `tx.elapsed().as_secs() < 30` at clock value `now` becomes
  `now - tx < 30` (truncated subtraction, matching `Instant::elapsed`'s
  saturation at zero).
* The two `HashMap`s guarded by mutexes are modelled as association lists with
  first-match lookup; `insert` removes any previous binding and conses the new
  one, `remove` filters the key out.  Lock poisoning (`Err` of `Mutex::lock`)
  is a concurrency failure with no counterpart in a sequential embedding and
  is not modelled; every code path below is the `Ok` branch of the lock.
* The per-identity window `[Option<Instant>; 32]` always holds a contiguous
  prefix of `Some` slots followed by `None`s (the initial insert fills slot 0,
  and every rewrite builds `new_instants` by filling slots `0..i` and possibly
  slot `i` or `31`); the window is therefore modelled as the `List Nat` of its
  filled slots, and `new_instants.sort()` — which runs only when all 32 slots
  are filled, so no `None` participates — as an ascending sort of that list.
  On `Nat` every correct ascending sort yields the same list, so Mathlib's
  `List.insertionSort (· ≤ ·)` computes exactly what Rust's stable ascending
  slice sort computes.
* `HmacSha256` comes from the external `hmac`/`sha2` crates; it is modelled as
  an arbitrary function `mac : String → String → String` threaded through the
  definitions.  Being a Lean function it is deterministic by construction,
  which is the only property of HMAC-SHA256 the claims rely on.
* The random draws of `generate_pow` (`key_rand_bytes` and the secret) are
  passed in as explicit arguments, turning the randomized code into a
  deterministic function of the sampled values.
-/

namespace Tinycomments

/-- First-match lookup in an association list (model of `HashMap::get`). -/
def alookup {α : Type} (k : String) : List (String × α) → Option α
  | [] => none
  | (k2, v) :: rest => if k2 = k then some v else alookup k rest

/-- Insert-or-replace (model of `HashMap::insert`). -/
def ainsert {α : Type} (k : String) (v : α) (l : List (String × α)) :
    List (String × α) :=
  (k, v) :: l.filter (fun p => !(p.1 = k : Bool))

/-- Key removal (model of `HashMap::remove`). -/
def aerase {α : Type} (k : String) (l : List (String × α)) :
    List (String × α) :=
  l.filter (fun p => !(p.1 = k : Bool))

/-- Lower-case hex digit for a value below 16 (as produced by `hex::encode`). -/
def hexDigit (n : Nat) : Char :=
  if n < 10 then Char.ofNat (48 + n) else Char.ofNat (87 + n)

/-- Two-digit lower-case hex rendering of one byte. -/
def hexByte (b : Nat) : List Char :=
  [hexDigit (b / 16 % 16), hexDigit (b % 16)]

/-- Model of `hex::encode` on a byte slice. -/
def hexEncode (bytes : List Nat) : String :=
  String.mk ((bytes.map hexByte).flatten)

/-- `struct Pow` of `pow.rs`: the pair returned to the client. -/
structure Pow where
  key : String
  challenge : String
deriving Repr, DecidableEq

/-- `struct PowChallenge` of `pow.rs`: the pending-table entry. -/
structure PowChallenge where
  client_ip : String
  key : List Nat
deriving Repr, DecidableEq

/-- `struct PowError` of `pow.rs`: the gate's error rendering. -/
structure PowError where
  code : Nat
  status : Option String
  challenge : Option String
  key : Option String
deriving Repr, DecidableEq

/-- `struct PowTable` of `pow.rs`: the two shared maps. -/
structure PowTable where
  challenges : List (String × PowChallenge)
  transactions : List (String × List Nat)
deriving Repr, DecidableEq

/-- `PowTable::new`. -/
def PowTable.new : PowTable := ⟨[], []⟩

/-- The liveness test of `get_txcount`: `tx.elapsed().as_secs() < 30`. -/
def isLive (now tx : Nat) : Bool := now - tx < 30

/-- `PowTable::get_txcount`.  Filters the identity's window down to its live
entries, optionally records `now` (evicting via sort-and-overwrite-last when
all 32 slots are live), and returns the count of live entries found — note
that in the `Some` branch the returned `tx_count` counts only the previously
stored entries, not the just-recorded one. -/
def get_txcount (now : Nat) (st : PowTable) (ip : String)
    (add_transaction : Bool) : Nat × PowTable :=
  match alookup ip st.transactions with
  | some txvec =>
      let live := txvec.filter (isLive now)
      let tx_count := live.length
      if add_transaction then
        let new_instants :=
          if live.length < 32 then live ++ [now]
          else (List.insertionSort (· ≤ ·) live).take 31 ++ [now]
        (tx_count, { st with transactions := ainsert ip new_instants st.transactions })
      else
        (tx_count, st)
  | none =>
      if add_transaction then
        (1, { st with transactions := ainsert ip [now] st.transactions })
      else
        (0, st)

/-- `PowTable::generate_pow`, with the sampled key bytes and secret made
explicit.  Side condition for faithfulness to the sampler
(`rng.gen_range(0..u64::pow(2, bits))`): `secret_val < 2 ^ bits`. -/
def generate_pow (mac : String → String → String) (key_rand_bytes : List Nat)
    (secret_val : Nat) (st : PowTable) (ip : String) (bits : Nat) :
    Pow × PowTable :=
  let hexkey := hexEncode key_rand_bytes
  let secret := Nat.repr secret_val
  let challenge := mac hexkey secret
  (⟨hexkey, challenge⟩,
   { st with challenges := ainsert challenge ⟨ip, key_rand_bytes⟩ st.challenges })

/-- `PowTable::get_challenge`: record the attempt, and mint a challenge at
difficulty `16 + count - 5` when the trailing count exceeds 5. -/
def get_challenge (mac : String → String → String) (key_rand_bytes : List Nat)
    (secret_val : Nat) (now : Nat) (st : PowTable) (ip : String) :
    Option Pow × PowTable :=
  let r := get_txcount now st ip true
  if r.1 > 5 then
    let g := generate_pow mac key_rand_bytes secret_val r.2 ip (16 + r.1 - 5)
    (some g.1, g.2)
  else
    (none, r.2)

/-- The difficulty argument `get_challenge` passes to `generate_pow` on state
`st` (`none` when no challenge would be issued): a projection of
`get_challenge` used to reason about the otherwise-internal `bits` value. -/
def issuedBits (now : Nat) (st : PowTable) (ip : String) : Option Nat :=
  let r := get_txcount now st ip true
  if r.1 > 5 then some (16 + r.1 - 5) else none

/-- `PowTable::validate_pow`: look the commitment up, check identity binding,
recompute the MAC and consume the entry on success.  The error strings are the
source's: `"Invalid challenge"` (Unknown), `"Forbidden. Client IP Mismatch."`
(IdentityMismatch), `"Forbidden"` (WrongSolution). -/
def validate_pow (mac : String → String → String) (st : PowTable)
    (ip : String) (client_challenge : String) (client_secret : String) :
    Except String String × PowTable :=
  match alookup client_challenge st.challenges with
  | some challenge =>
      if challenge.client_ip ≠ ip then
        (Except.error "Forbidden. Client IP Mismatch.", st)
      else
        let computed := mac (hexEncode challenge.key) client_secret
        if computed = client_challenge then
          (Except.ok "Ok", { st with challenges := aerase client_challenge st.challenges })
        else
          (Except.error "Forbidden", st)
  | none => (Except.error "Invalid challenge", st)

/-- `PowTable::handle`: the gate façade.  With a commitment and secret it
delegates to the validator; with a commitment but no secret it reports an
incomplete proof; with no proof it consults `get_challenge`. -/
def handle (mac : String → String → String) (key_rand_bytes : List Nat)
    (secret_val : Nat) (now : Nat) (st : PowTable) (ip : String)
    (challenge secret : Option String) : Option PowError × PowTable :=
  match challenge with
  | some ch =>
      match secret with
      | some sec =>
          match validate_pow mac st ip ch sec with
          | (Except.error _, st2) =>
              (some ⟨403, some "Challenge not accepted.", none, none⟩, st2)
          | (Except.ok _, st2) => (none, st2)
      | none =>
          (some ⟨500, some "Challenge proof incomplete: no secret provided",
                 none, none⟩, st)
  | none =>
      match get_challenge mac key_rand_bytes secret_val now st ip with
      | (some pow, st2) =>
          (some ⟨401, none, some pow.challenge, some pow.key⟩, st2)
      | (none, st2) => (none, st2)

/-- `GetPowResponse` of `main.rs`. -/
structure GetPowResponse where
  code : Nat
  key : String
  challenge : String
deriving Repr, DecidableEq

/-- The `get_pow` route of `main.rs`: the issue-challenge probe endpoint. -/
def get_pow (mac : String → String → String) (key_rand_bytes : List Nat)
    (secret_val : Nat) (now : Nat) (st : PowTable) (ip : String) :
    GetPowResponse × PowTable :=
  match get_challenge mac key_rand_bytes secret_val now st ip with
  | (some pow, st2) => (⟨401, pow.key, pow.challenge⟩, st2)
  | (none, st2) => (⟨300, "", "Challenge not required."⟩, st2)

/-- State of the gate after `j` proof-less gated attempts by identity `ip`,
starting from the fresh table; attempt `i` happens at clock value `ts i` and
would use sampled key bytes `ks i` and secret `ss i` if a challenge is minted. -/
def gatedState (mac : String → String → String) (ks : Nat → List Nat)
    (ss : Nat → Nat) (ts : Nat → Nat) (ip : String) : Nat → PowTable
  | 0 => PowTable.new
  | j + 1 =>
      (handle mac (ks j) (ss j) (ts j) (gatedState mac ks ss ts ip j) ip
        none none).2

/-- The façade's verdict on the `j`-th proof-less gated attempt (`none` is
`Admitted`: the operation proceeds). -/
def gatedVerdict (mac : String → String → String) (ks : Nat → List Nat)
    (ss : Nat → Nat) (ts : Nat → Nat) (ip : String) (j : Nat) :
    Option PowError :=
  (handle mac (ks j) (ss j) (ts j) (gatedState mac ks ss ts ip j) ip
    none none).1

/-- Well-formedness of the table: every stored window fits in 32 slots (true
of every state reachable from `PowTable.new`, where windows model the 32-slot
arrays). -/
def WF (st : PowTable) : Prop :=
  ∀ p ∈ st.transactions, (p.2 : List Nat).length ≤ 32

instance (st : PowTable) : Decidable (WF st) :=
  inferInstanceAs (Decidable (∀ p ∈ st.transactions, (p.2 : List Nat).length ≤ 32))

/-- A concrete stand-in for HMAC-SHA256 used by the closed witness theorems:
any deterministic `String → String → String` instantiates the model. -/
def macDemo (k s : String) : String := k ++ "#" ++ s

lemma alookup_ainsert_self {α : Type} (k : String) (v : α)
    (l : List (String × α)) : alookup k (ainsert k v l) = some v := by
  simp [alookup, ainsert]

lemma alookup_aerase_self {α : Type} (k : String) (l : List (String × α)) :
    alookup k (aerase k l) = none := by
  induction l with
  | nil => rfl
  | cons p rest ih =>
      by_cases h : p.1 = k
      · simpa [aerase, h] using ih
      · simpa [aerase, alookup, h] using ih

lemma alookup_mem {α : Type} {k : String} {v : α} {l : List (String × α)}
    (h : alookup k l = some v) : (k, v) ∈ l := by
  induction l with
  | nil => simp [alookup] at h
  | cons p rest ih =>
      obtain ⟨p1, p2⟩ := p
      by_cases hk : p1 = k
      · subst hk
        simp [alookup] at h
        subst h
        exact List.mem_cons_self _ _
      · simp [alookup, hk] at h
        exact List.mem_cons_of_mem _ (ih h)

/-- `validate_pow` when the commitment is present, bound to the caller, and
the claimed secret recomputes to the commitment: success, and the entry is
erased. -/
lemma validate_pow_ok {mac : String → String → String} {st : PowTable}
    {ip commitment secret : String} {key : List Nat}
    (hlook : alookup commitment st.challenges = some ⟨ip, key⟩)
    (hmac : mac (hexEncode key) secret = commitment) :
    validate_pow mac st ip commitment secret =
      (Except.ok "Ok", { st with challenges := aerase commitment st.challenges }) := by
  simp [validate_pow, hlook, hmac]

/-- C3 — a challenge is single-use: with the entry pending and the correct
secret, the first `validate_pow` call from the issuing identity succeeds and
removes the entry, and the second call with the very same correct secret is
rejected with the `Unknown` error (`"Invalid challenge"`). -/
theorem c3_challenge_single_use (mac : String → String → String)
    (st : PowTable) (ip commitment secret : String) (key : List Nat)
    (hlook : alookup commitment st.challenges = some ⟨ip, key⟩)
    (hmac : mac (hexEncode key) secret = commitment) :
    (validate_pow mac st ip commitment secret).1 = Except.ok "Ok" ∧
    (validate_pow mac (validate_pow mac st ip commitment secret).2 ip
        commitment secret).1 = Except.error "Invalid challenge" := by
  rw [validate_pow_ok hlook hmac]
  refine ⟨rfl, ?_⟩
  simp [validate_pow, alookup_aerase_self]

/-- Closed instance of C3 at a concrete pending challenge. -/
theorem c3_challenge_single_use_witness :
    (validate_pow macDemo
        ⟨[("00#9", ⟨"1.2.3.4", [0]⟩)], []⟩ "1.2.3.4" "00#9" "9").1 = Except.ok "Ok" ∧
    (validate_pow macDemo
        (validate_pow macDemo ⟨[("00#9", ⟨"1.2.3.4", [0]⟩)], []⟩ "1.2.3.4" "00#9" "9").2
        "1.2.3.4" "00#9" "9").1 = Except.error "Invalid challenge" :=
  c3_challenge_single_use macDemo ⟨[("00#9", ⟨"1.2.3.4", [0]⟩)], []⟩
    "1.2.3.4" "00#9" "9" [0] (by decide) (by decide)

/-- C4 — issue/validate round-trip: the challenge minted by `generate_pow`
from key bytes `K` and secret `S` carries commitment `mac (hex K) (decimal S)`
and key `hex K` (a fixed function of `K` and `S`, so the computation is
deterministic), the pending table maps that commitment to the issuing
identity and `K`, and `validate_pow` by the issuing identity with the decimal
text of `S` succeeds.  The hypothesis is the sampler's range guarantee
`S < 2 ^ bits`. -/
theorem c4_issue_validate_round_trip (mac : String → String → String)
    (K : List Nat) (S : Nat) (st : PowTable) (ip : String) (bits : Nat)
    (hS : S < 2 ^ bits) :
    (generate_pow mac K S st ip bits).1.challenge
        = mac (hexEncode K) (Nat.repr S) ∧
    (generate_pow mac K S st ip bits).1.key = hexEncode K ∧
    alookup (generate_pow mac K S st ip bits).1.challenge
        (generate_pow mac K S st ip bits).2.challenges = some ⟨ip, K⟩ ∧
    (validate_pow mac (generate_pow mac K S st ip bits).2 ip
        (generate_pow mac K S st ip bits).1.challenge (Nat.repr S)).1
      = Except.ok "Ok" := by
  refine ⟨rfl, rfl, ?_, ?_⟩
  · simp [generate_pow, alookup_ainsert_self]
  · have hlook2 : alookup (mac (hexEncode K) (Nat.repr S))
        (generate_pow mac K S st ip bits).2.challenges = some ⟨ip, K⟩ := by
      simp [generate_pow, alookup_ainsert_self]
    show (validate_pow mac (generate_pow mac K S st ip bits).2 ip
        (mac (hexEncode K) (Nat.repr S)) (Nat.repr S)).1 = Except.ok "Ok"
    rw [validate_pow_ok hlook2 rfl]

/-- Closed instance of C4 at concrete key bytes and secret. -/
theorem c4_issue_validate_round_trip_witness :
    (7 : Nat) < 2 ^ 17 ∧
    (generate_pow macDemo [255, 0] 7 PowTable.new "1.2.3.4" 17).1.challenge
        = macDemo (hexEncode [255, 0]) (Nat.repr 7) ∧
    (validate_pow macDemo (generate_pow macDemo [255, 0] 7 PowTable.new "1.2.3.4" 17).2
        "1.2.3.4"
        (generate_pow macDemo [255, 0] 7 PowTable.new "1.2.3.4" 17).1.challenge
        (Nat.repr 7)).1 = Except.ok "Ok" :=
  ⟨by decide,
   (c4_issue_validate_round_trip macDemo [255, 0] 7 PowTable.new "1.2.3.4" 17
      (by decide)).1,
   (c4_issue_validate_round_trip macDemo [255, 0] 7 PowTable.new "1.2.3.4" 17
      (by decide)).2.2.2⟩

/-- C5 — identity binding: when the pending entry was issued to a different
identity than the caller, `validate_pow` returns the `IdentityMismatch` error
(`"Forbidden. Client IP Mismatch."`) and leaves the state unchanged, for every
claimed secret — including the mathematically correct one, since the identity
check is decided before the MAC is recomputed. -/
theorem c5_identity_mismatch (mac : String → String → String) (st : PowTable)
    (ip commitment : String) (entry : PowChallenge)
    (hlook : alookup commitment st.challenges = some entry)
    (hne : entry.client_ip ≠ ip) :
    ∀ secret : String,
      validate_pow mac st ip commitment secret
        = (Except.error "Forbidden. Client IP Mismatch.", st) := by
  intro secret
  simp [validate_pow, hlook, hne]

/-- Closed instance of C5, with the claimed secret the mathematically correct
one for the stored key and commitment. -/
theorem c5_identity_mismatch_witness :
    validate_pow macDemo ⟨[("00#9", ⟨"1.2.3.4", [0]⟩)], []⟩ "5.6.7.8" "00#9" "9"
      = (Except.error "Forbidden. Client IP Mismatch.",
         ⟨[("00#9", ⟨"1.2.3.4", [0]⟩)], []⟩) :=
  c5_identity_mismatch macDemo ⟨[("00#9", ⟨"1.2.3.4", [0]⟩)], []⟩ "5.6.7.8"
    "00#9" ⟨"1.2.3.4", [0]⟩ (by decide) (by decide) "9"

/-- C6 — wrong solution is non-destructive: a `validate_pow` call by the
issuing identity with an incorrect secret returns the `WrongSolution` error
(`"Forbidden"`) and returns the table unchanged (the entry is still pending),
so the same call on that state with the correct secret still succeeds. -/
theorem c6_wrong_solution_retryable (mac : String → String → String)
    (st : PowTable) (ip commitment wrong correct : String)
    (entry : PowChallenge)
    (hlook : alookup commitment st.challenges = some entry)
    (hip : entry.client_ip = ip)
    (hwrong : mac (hexEncode entry.key) wrong ≠ commitment)
    (hcorrect : mac (hexEncode entry.key) correct = commitment) :
    validate_pow mac st ip commitment wrong = (Except.error "Forbidden", st) ∧
    (validate_pow mac st ip commitment correct).1 = Except.ok "Ok" := by
  constructor
  · simp [validate_pow, hlook, hip, hwrong]
  · obtain ⟨cip, ckey⟩ := entry
    simp only at hip hcorrect
    subst hip
    rw [validate_pow_ok hlook hcorrect]

/-- Closed instance of C6: guess `"7"` is rejected without consuming the
entry, then the correct `"9"` succeeds. -/
theorem c6_wrong_solution_retryable_witness :
    validate_pow macDemo ⟨[("00#9", ⟨"1.2.3.4", [0]⟩)], []⟩ "1.2.3.4" "00#9" "7"
      = (Except.error "Forbidden", ⟨[("00#9", ⟨"1.2.3.4", [0]⟩)], []⟩) ∧
    (validate_pow macDemo ⟨[("00#9", ⟨"1.2.3.4", [0]⟩)], []⟩ "1.2.3.4" "00#9" "9").1
      = Except.ok "Ok" :=
  c6_wrong_solution_retryable macDemo ⟨[("00#9", ⟨"1.2.3.4", [0]⟩)], []⟩
    "1.2.3.4" "00#9" "7" "9" ⟨"1.2.3.4", [0]⟩ (by decide) (by decide)
    (by decide) (by decide)

lemma filter_filter_self (p : Nat → Bool) (l : List Nat) :
    (l.filter p).filter p = l.filter p :=
  List.filter_eq_self.mpr (fun _ hx => List.of_mem_filter hx)

/-- C7 (counterexample to the claim as stated) — with an existing window
holding the single live timestamp `0`, a recording call at `now = 5` returns
`1`, while the window afterwards holds the two live timestamps `[0, 5]`: the
return value does not include the just-recorded entry. -/
theorem c7_count_counterexample :
    (get_txcount 5 ⟨[], [("1.2.3.4", [0])]⟩ "1.2.3.4" true).1 = 1 ∧
    alookup "1.2.3.4"
        (get_txcount 5 ⟨[], [("1.2.3.4", [0])]⟩ "1.2.3.4" true).2.transactions
      = some [0, 5] ∧
    (([0, 5] : List Nat).filter (isLive 5)).length = 2 ∧
    (get_txcount 5 ⟨[], [("1.2.3.4", [0])]⟩ "1.2.3.4" true).1
      ≠ (([0, 5] : List Nat).filter (isLive 5)).length := by
  decide

/-- C7 (amended) — `get_txcount` with recording enabled returns, for an
identity with an existing window, the number of stored timestamps less than
30 seconds old **excluding** the just-recorded one: the recorded window then
holds one more live entry than the returned count (when fewer than 32 were
live).  For an identity with no window it returns 1 when recording and 0 on a
count-only probe. -/
theorem c7_count_semantics (st : PowTable) (ip : String) (now : Nat) :
    (∀ w, alookup ip st.transactions = some w →
       (get_txcount now st ip true).1 = (w.filter (isLive now)).length ∧
       ((w.filter (isLive now)).length < 32 →
          alookup ip (get_txcount now st ip true).2.transactions
            = some (w.filter (isLive now) ++ [now]) ∧
          ((w.filter (isLive now) ++ [now]).filter (isLive now)).length
            = (w.filter (isLive now)).length + 1)) ∧
    (alookup ip st.transactions = none →
       (get_txcount now st ip true).1 = 1 ∧
       (get_txcount now st ip false).1 = 0) := by
  constructor
  · intro w hw
    refine ⟨by simp [get_txcount, hw], ?_⟩
    intro h32
    constructor
    · simp [get_txcount, hw, h32, alookup_ainsert_self]
    · have hnow : isLive now now = true := by simp [isLive]
      rw [List.filter_append, filter_filter_self]
      simp [hnow]
  · intro hw
    exact ⟨by simp [get_txcount, hw], by simp [get_txcount, hw]⟩

/-- Closed instance of C7 (amended): a recording call over an existing
one-entry window returns the pre-existing live count, and fresh-window calls
return 1 (recording) and 0 (probe). -/
theorem c7_count_semantics_witness :
    (get_txcount 5 ⟨[], [("1.2.3.4", [0])]⟩ "1.2.3.4" true).1
      = ((([0] : List Nat)).filter (isLive 5)).length ∧
    ((get_txcount 0 PowTable.new "1.2.3.4" true).1 = 1 ∧
     (get_txcount 0 PowTable.new "1.2.3.4" false).1 = 0) :=
  ⟨((c7_count_semantics ⟨[], [("1.2.3.4", [0])]⟩ "1.2.3.4" 5).1 [0]
      (by decide)).1,
   (c7_count_semantics PowTable.new "1.2.3.4" 0).2 (by decide)⟩

/-- C8 — evaluation of `get_txcount` at a full window: identity
`"203.0.113.7"` holds 32 live timestamps (the oldest, `1`, thrice; the most
recent, `29`, once) and records a new attempt at `now = 30`.  The code sorts
ascending and overwrites the last slot, so the resulting window has lost the
most recent prior timestamp `29` while all three copies of the oldest
timestamp `1` survive — the evicted slot is the newest, not the oldest,
contradicting the specified eviction policy. -/
theorem c8_full_window_eviction :
    ((([1, 1, 1, 2, 2] ++ List.range' 3 27 : List Nat)).filter
        (isLive 30)).length = 32 ∧
    (([1, 1, 1, 2, 2] ++ List.range' 3 27 : List Nat)).count 29 = 1 ∧
    (get_txcount 30 ⟨[], [("203.0.113.7", [1, 1, 1, 2, 2] ++ List.range' 3 27)]⟩
        "203.0.113.7" true).2.transactions
      = [("203.0.113.7", ([1, 1, 1, 2, 2] ++ List.range' 3 26) ++ [30])] ∧
    ((([1, 1, 1, 2, 2] ++ List.range' 3 26) ++ [30] : List Nat)).count 29 = 0 ∧
    ((([1, 1, 1, 2, 2] ++ List.range' 3 26) ++ [30] : List Nat)).count 1 = 3 := by
  decide

/-- C9 (counterexample to the claim as stated) — on the no-challenge path the
probe endpoint answers code 300 with an empty `key` but with `challenge` set
to the literal `"Challenge not required."`, not the empty string. -/
theorem c9_no_challenge_counterexample :
    (get_pow macDemo [0] 0 0 PowTable.new "1.2.3.4").1
      = ⟨300, "", "Challenge not required."⟩ ∧
    (get_pow macDemo [0] 0 0 PowTable.new "1.2.3.4").1.challenge ≠ "" := by
  decide

/-- C9 (amended) — the issue-challenge probe returns code 401 carrying the
issued hex key and hex commitment when `get_challenge` mints a challenge, and
code 300 with `key = ""` and `challenge = "Challenge not required."` when it
does not. -/
theorem c9_probe_response (mac : String → String → String) (kv : List Nat)
    (sv now : Nat) (st : PowTable) (ip : String) :
    (∀ pow st2, get_challenge mac kv sv now st ip = (some pow, st2) →
       (get_pow mac kv sv now st ip).1 = ⟨401, pow.key, pow.challenge⟩) ∧
    ((get_challenge mac kv sv now st ip).1 = none →
       (get_pow mac kv sv now st ip).1 = ⟨300, "", "Challenge not required."⟩) := by
  constructor
  · intro pow st2 h
    simp [get_pow, h]
  · intro h
    rcases hgc : get_challenge mac kv sv now st ip with ⟨o, st2⟩
    rw [hgc] at h
    simp only at h
    subst h
    simp [get_pow, hgc]

/-- Closed instance of C9 (amended): a challenge-issuing call (six live prior
attempts) answers 401 with the issued key and commitment; a fresh identity
answers 300 with the fixed strings. -/
theorem c9_probe_response_witness :
    (get_pow macDemo [7] 3 0 ⟨[], [("1.2.3.4", [0, 0, 0, 0, 0, 0])]⟩
        "1.2.3.4").1 = ⟨401, "07", "07#3"⟩ ∧
    (get_pow macDemo [0] 0 0 PowTable.new "1.2.3.4").1
      = ⟨300, "", "Challenge not required."⟩ :=
  ⟨(c9_probe_response macDemo [7] 3 0 ⟨[], [("1.2.3.4", [0, 0, 0, 0, 0, 0])]⟩
      "1.2.3.4").1 ⟨"07", "07#3"⟩
      ⟨[("07#3", ⟨"1.2.3.4", [7]⟩)], [("1.2.3.4", [0, 0, 0, 0, 0, 0, 0])]⟩
      (by decide),
   (c9_probe_response macDemo [0] 0 0 PowTable.new "1.2.3.4").2 (by decide)⟩

lemma get_challenge_le {now : Nat} {st : PowTable} {ip : String}
    (mac : String → String → String) (kv : List Nat) (sv : Nat)
    (h : (get_txcount now st ip true).1 ≤ 5) :
    get_challenge mac kv sv now st ip = (none, (get_txcount now st ip true).2) := by
  have hc : ¬ ((get_txcount now st ip true).1 > 5) := by omega
  simp [get_challenge, hc]

lemma get_challenge_gt {now : Nat} {st : PowTable} {ip : String}
    (mac : String → String → String) (kv : List Nat) (sv : Nat)
    (h : (get_txcount now st ip true).1 > 5) :
    get_challenge mac kv sv now st ip
      = (some (generate_pow mac kv sv (get_txcount now st ip true).2 ip
            (16 + (get_txcount now st ip true).1 - 5)).1,
         (generate_pow mac kv sv (get_txcount now st ip true).2 ip
            (16 + (get_txcount now st ip true).1 - 5)).2) := by
  simp [get_challenge, h]

lemma get_challenge_transactions (mac : String → String → String)
    (kv : List Nat) (sv now : Nat) (st : PowTable) (ip : String) :
    (get_challenge mac kv sv now st ip).2.transactions
      = (get_txcount now st ip true).2.transactions := by
  by_cases h : (get_txcount now st ip true).1 > 5
  · rw [get_challenge_gt mac kv sv h]
    rfl
  · rw [get_challenge_le mac kv sv (by omega)]

lemma handle_no_proof (mac : String → String → String) (kv : List Nat)
    (sv now : Nat) (st : PowTable) (ip : String) :
    handle mac kv sv now st ip none none
      = ((get_challenge mac kv sv now st ip).1.map
           (fun pow => ⟨401, none, some pow.challenge, some pow.key⟩),
         (get_challenge mac kv sv now st ip).2) := by
  rcases hgc : get_challenge mac kv sv now st ip with ⟨o, st2⟩
  cases o <;> simp [handle, hgc]

lemma gatedState_succ_transactions (mac : String → String → String)
    (ks : Nat → List Nat) (ss ts : Nat → Nat) (ip : String) (j : Nat) :
    (gatedState mac ks ss ts ip (j + 1)).transactions
      = (get_txcount (ts j) (gatedState mac ks ss ts ip j) ip true).2.transactions := by
  show (handle mac (ks j) (ss j) (ts j) (gatedState mac ks ss ts ip j) ip
      none none).2.transactions = _
  rw [handle_no_proof]
  exact get_challenge_transactions mac (ks j) (ss j) (ts j) _ ip

lemma gatedVerdict_none_of_count_le (mac : String → String → String)
    (ks : Nat → List Nat) (ss ts : Nat → Nat) (ip : String) (j : Nat)
    (h : (get_txcount (ts j) (gatedState mac ks ss ts ip j) ip true).1 ≤ 5) :
    gatedVerdict mac ks ss ts ip j = none := by
  unfold gatedVerdict
  rw [handle_no_proof, get_challenge_le mac (ks j) (ss j) h]
  rfl

lemma gatedVerdict_isSome_of_count_gt (mac : String → String → String)
    (ks : Nat → List Nat) (ss ts : Nat → Nat) (ip : String) (j : Nat)
    (h : (get_txcount (ts j) (gatedState mac ks ss ts ip j) ip true).1 > 5) :
    (gatedVerdict mac ks ss ts ip j).isSome = true := by
  unfold gatedVerdict
  rw [handle_no_proof, get_challenge_gt mac (ks j) (ss j) h]
  rfl

lemma issuedBits_of_le {now : Nat} {st : PowTable} {ip : String}
    (h : (get_txcount now st ip true).1 ≤ 5) :
    issuedBits now st ip = none := by
  have hc : ¬ ((get_txcount now st ip true).1 > 5) := by omega
  simp [issuedBits, hc]

lemma issuedBits_of_gt {now : Nat} {st : PowTable} {ip : String}
    (h : (get_txcount now st ip true).1 > 5) :
    issuedBits now st ip = some (16 + (get_txcount now st ip true).1 - 5) := by
  simp [issuedBits, h]

/-- The count a trailing attempt sees is at most 4 when the window's entries
come from earlier attempts of a schedule that places at most 5 attempts in
each trailing 30-second span. -/
lemma live_count_le_four (ts : Nat → Nat) (j : Nat) (w : List Nat)
    (hw : List.Sublist w ((List.range j).map ts))
    (hrate : ((List.range (j + 1)).countP (fun i => isLive (ts j) (ts i))) ≤ 5) :
    (w.filter (isLive (ts j))).length ≤ 4 := by
  rw [← List.countP_eq_length_filter]
  have h2 : w.countP (isLive (ts j))
      ≤ ((List.range j).map ts).countP (isLive (ts j)) := hw.countP_le _
  have h3 : ((List.range j).map ts).countP (isLive (ts j))
      = (List.range j).countP (fun i => isLive (ts j) (ts i)) := by
    rw [List.countP_map]
    rfl
  have h4 : (List.range (j + 1)).countP (fun i => isLive (ts j) (ts i))
      = (List.range j).countP (fun i => isLive (ts j) (ts i)) + 1 := by
    rw [List.range_succ, List.countP_append]
    simp [isLive]
  omega

/-- C1 — for an identity whose gated proof-less attempts number at most 5 in
every trailing 30-second span (on a monotone clock), every attempt is
admitted: `handle` (hence `get_challenge`) returns no challenge, so the
verdict is `none` at each of the attempts. -/
theorem c1_low_rate_always_admitted (mac : String → String → String)
    (ks : Nat → List Nat) (ss ts : Nat → Nat) (ip : String) (n : Nat)
    (Hmono : ∀ i j : Nat, i ≤ j → ts i ≤ ts j)
    (Hrate : ∀ j, j < n →
       ((List.range (j + 1)).countP (fun i => isLive (ts j) (ts i))) ≤ 5) :
    ∀ j, j < n → gatedVerdict mac ks ss ts ip j = none := by
  have inv : ∀ j, j ≤ n → ∀ w,
      alookup ip (gatedState mac ks ss ts ip j).transactions = some w →
      List.Sublist w ((List.range j).map ts) := by
    intro j
    induction j with
    | zero =>
        intro _ w hw
        simp [gatedState, PowTable.new, alookup] at hw
    | succ j ih =>
        intro hj w hw
        have hjn : j < n := hj
        rw [gatedState_succ_transactions] at hw
        rcases hlook : alookup ip (gatedState mac ks ss ts ip j).transactions with _ | w0
        · rw [show get_txcount (ts j) (gatedState mac ks ss ts ip j) ip true
              = (1, { gatedState mac ks ss ts ip j with
                      transactions := ainsert ip [ts j]
                        (gatedState mac ks ss ts ip j).transactions }) by
            simp [get_txcount, hlook]] at hw
          rw [alookup_ainsert_self] at hw
          cases hw
          refine List.singleton_sublist.mpr ?_
          exact List.mem_map.mpr ⟨j, List.mem_range.mpr (Nat.lt_succ_self j), rfl⟩
        · have hsub := ih (Nat.le_of_lt hjn) w0 hlook
          have hlen := live_count_le_four ts j w0 hsub (Hrate j hjn)
          rw [show get_txcount (ts j) (gatedState mac ks ss ts ip j) ip true
              = ((w0.filter (isLive (ts j))).length,
                 { gatedState mac ks ss ts ip j with
                   transactions := ainsert ip (w0.filter (isLive (ts j)) ++ [ts j])
                     (gatedState mac ks ss ts ip j).transactions }) by
            simp [get_txcount, hlook, show (w0.filter (isLive (ts j))).length < 32 by omega]] at hw
          rw [alookup_ainsert_self] at hw
          cases hw
          have hfil : List.Sublist (w0.filter (isLive (ts j))) ((List.range j).map ts) :=
            (List.filter_sublist w0).trans hsub
          have happ := List.Sublist.append hfil (List.Sublist.refl [ts j])
          rw [List.range_succ, List.map_append]
          simpa using happ
  intro j hj
  rcases hlook : alookup ip (gatedState mac ks ss ts ip j).transactions with _ | w0
  · refine gatedVerdict_none_of_count_le mac ks ss ts ip j ?_
    simp [get_txcount, hlook]
  · have hsub := inv j (Nat.le_of_lt hj) w0 hlook
    have hlen := live_count_le_four ts j w0 hsub (Hrate j hj)
    refine gatedVerdict_none_of_count_le mac ks ss ts ip j ?_
    simp only [get_txcount, hlook]
    simp [show (w0.filter (isLive (ts j))).length < 32 by omega]
    omega

/-- Closed instance of C1: attempts 31 seconds apart (so one per trailing
span) are all admitted. -/
theorem c1_low_rate_always_admitted_witness :
    gatedVerdict macDemo (fun _ => [0]) (fun _ => 0) (fun i => 31 * i)
      "1.2.3.4" 2 = none :=
  c1_low_rate_always_admitted macDemo (fun _ => [0]) (fun _ => 0)
    (fun i => 31 * i) "1.2.3.4" 3
    (fun i j h => by show 31 * i ≤ 31 * j; omega)
    (by decide) 2 (by omega)

/-- C2 (counterexample to the claim as stated) — six proof-less attempts in
rapid succession (all at the same clock second): the 6th attempt (index 5) is
admitted with no challenge and no difficulty is selected, contradicting "the
6th attempt yields a challenge with difficulty_bits = 17". -/
theorem c2_sixth_attempt_counterexample :
    gatedVerdict macDemo (fun _ => [0]) (fun _ => 0) (fun _ => 0) "1.2.3.4" 5
      = none ∧
    issuedBits 0 (gatedState macDemo (fun _ => [0]) (fun _ => 0) (fun _ => 0)
      "1.2.3.4" 5) "1.2.3.4" = none := by
  decide

/-- C2 (amended) — for proof-less gated attempts in rapid succession (all
pairwise within 30 seconds), attempts 1–6 (indices 0–5) are admitted with no
difficulty selected; from the 7th attempt (index `j ≥ 6`) on, a challenge is
issued and the difficulty passed to `generate_pow` is
`16 + trailing_count - 5` with `trailing_count = min j 32`, so the 7th
attempt gets 17 bits, the 8th gets 18, and so on; difficulty is issued only
once the trailing count exceeds 5, every issued difficulty lies in
`[17, 43]`, and issued difficulties are monotonically non-decreasing along
the run. -/
theorem c2_rapid_succession_difficulty (mac : String → String → String)
    (ks : Nat → List Nat) (ss ts : Nat → Nat) (ip : String) (n : Nat)
    (Hrapid : ∀ i j : Nat, i < n → j < n → ts j - ts i < 30) :
    ∀ j, j < n →
      (j < 6 → gatedVerdict mac ks ss ts ip j = none ∧
         issuedBits (ts j) (gatedState mac ks ss ts ip j) ip = none) ∧
      (6 ≤ j → (gatedVerdict mac ks ss ts ip j).isSome = true ∧
         issuedBits (ts j) (gatedState mac ks ss ts ip j) ip
           = some (16 + min j 32 - 5)) ∧
      (∀ b, issuedBits (ts j) (gatedState mac ks ss ts ip j) ip = some b →
         17 ≤ b ∧ b ≤ 43) ∧
      (∀ k, j ≤ k → k < n → ∀ b c,
         issuedBits (ts j) (gatedState mac ks ss ts ip j) ip = some b →
         issuedBits (ts k) (gatedState mac ks ss ts ip k) ip = some c →
         b ≤ c) := by
  have inv : ∀ j, j ≤ n →
      (j = 0 → alookup ip (gatedState mac ks ss ts ip j).transactions = none) ∧
      (1 ≤ j → ∃ w, alookup ip (gatedState mac ks ss ts ip j).transactions = some w ∧
         w.length = min j 32 ∧ ∀ x ∈ w, ∃ i, i < j ∧ x = ts i) := by
    intro j
    induction j with
    | zero => exact fun _ => ⟨fun _ => rfl, fun h => absurd h (by omega)⟩
    | succ j ih =>
        intro hj
        have hjn : j < n := hj
        have IH := ih (Nat.le_of_lt hjn)
        refine ⟨fun h => absurd h (by omega), fun _ => ?_⟩
        rcases Nat.eq_zero_or_pos j with rfl | hj1
        · have hlook := IH.1 rfl
          refine ⟨[ts 0], ?_, by simp, ?_⟩
          · rw [gatedState_succ_transactions]
            simp [get_txcount, hlook, alookup_ainsert_self]
          · intro x hx
            rw [List.mem_singleton] at hx
            exact ⟨0, by omega, hx⟩
        · obtain ⟨w, hlook, hwlen, hwmem⟩ := IH.2 hj1
          have hall : ∀ x ∈ w, isLive (ts j) x = true := by
            intro x hx
            obtain ⟨i, hi, rfl⟩ := hwmem x hx
            have := Hrapid i j (by omega) hjn
            simp [isLive, this]
          have hfil : w.filter (isLive (ts j)) = w := List.filter_eq_self.mpr hall
          by_cases h32 : w.length < 32
          · refine ⟨w ++ [ts j], ?_, ?_, ?_⟩
            · rw [gatedState_succ_transactions]
              simp [get_txcount, hlook, hfil, h32, alookup_ainsert_self]
            · simp only [List.length_append, List.length_singleton]
              omega
            · intro x hx
              rcases List.mem_append.mp hx with hx | hx
              · obtain ⟨i, hi, rfl⟩ := hwmem x hx
                exact ⟨i, by omega, rfl⟩
              · rw [List.mem_singleton] at hx
                exact ⟨j, by omega, hx⟩
          · refine ⟨(List.insertionSort (· ≤ ·) w).take 31 ++ [ts j], ?_, ?_, ?_⟩
            · rw [gatedState_succ_transactions]
              simp [get_txcount, hlook, hfil, h32, alookup_ainsert_self]
            · have hw32 : w.length = 32 := by omega
              simp only [List.length_append, List.length_singleton,
                List.length_take, List.length_insertionSort, hw32]
              omega
            · intro x hx
              rcases List.mem_append.mp hx with hx | hx
              · have hx2 := List.mem_of_mem_take hx
                rw [List.mem_insertionSort] at hx2
                obtain ⟨i, hi, rfl⟩ := hwmem x hx2
                exact ⟨i, by omega, rfl⟩
              · rw [List.mem_singleton] at hx
                exact ⟨j, by omega, hx⟩
  have count0 : (get_txcount (ts 0) (gatedState mac ks ss ts ip 0) ip true).1 = 1 := by
    simp [get_txcount, (inv 0 (Nat.zero_le n)).1 rfl]
  have countj : ∀ j, 1 ≤ j → j < n →
      (get_txcount (ts j) (gatedState mac ks ss ts ip j) ip true).1 = min j 32 := by
    intro j hj1 hjn
    obtain ⟨w, hlook, hwlen, hwmem⟩ := (inv j (Nat.le_of_lt hjn)).2 hj1
    have hall : ∀ x ∈ w, isLive (ts j) x = true := by
      intro x hx
      obtain ⟨i, hi, rfl⟩ := hwmem x hx
      have := Hrapid i j (by omega) hjn
      simp [isLive, this]
    have hfil : w.filter (isLive (ts j)) = w := List.filter_eq_self.mpr hall
    simp [get_txcount, hlook, hfil, hwlen]
  have bits_char : ∀ j, j < n → ∀ b,
      issuedBits (ts j) (gatedState mac ks ss ts ip j) ip = some b →
      6 ≤ j ∧ b = 16 + min j 32 - 5 := by
    intro j hjn b hb
    rcases Nat.eq_zero_or_pos j with rfl | hj1
    · rw [issuedBits_of_le (by rw [count0]; omega)] at hb
      cases hb
    · have hcj := countj j hj1 hjn
      by_cases h6 : 6 ≤ j
      · rw [issuedBits_of_gt (by rw [hcj]; omega)] at hb
        rw [hcj] at hb
        exact ⟨h6, (Option.some.inj hb).symm⟩
      · rw [issuedBits_of_le (by rw [hcj]; omega)] at hb
        cases hb
  intro j hjn
  refine ⟨?_, ?_, ?_, ?_⟩
  · intro hj6
    rcases Nat.eq_zero_or_pos j with rfl | hj1
    · exact ⟨gatedVerdict_none_of_count_le mac ks ss ts ip 0 (by rw [count0]; omega),
        issuedBits_of_le (by rw [count0]; omega)⟩
    · have hcj := countj j hj1 hjn
      exact ⟨gatedVerdict_none_of_count_le mac ks ss ts ip j (by rw [hcj]; omega),
        issuedBits_of_le (by rw [hcj]; omega)⟩
  · intro hj6
    have hcj := countj j (by omega) hjn
    have hgt : (get_txcount (ts j) (gatedState mac ks ss ts ip j) ip true).1 > 5 := by
      rw [hcj]; omega
    refine ⟨gatedVerdict_isSome_of_count_gt mac ks ss ts ip j hgt, ?_⟩
    rw [issuedBits_of_gt hgt, hcj]
  · intro b hb
    obtain ⟨hj6, rfl⟩ := bits_char j hjn b hb
    omega
  · intro k hjk hkn b c hb hc
    obtain ⟨hj6, rfl⟩ := bits_char j hjn b hb
    obtain ⟨hk6, rfl⟩ := bits_char k hkn c hc
    omega

/-- Closed instance of C2 (amended): with all attempts at the same second,
the 7th attempt (index 6) is challenged at 17 bits and the 8th (index 7) at
18 bits. -/
theorem c2_rapid_succession_difficulty_witness :
    (gatedVerdict macDemo (fun _ => [0]) (fun _ => 0) (fun _ => 0)
        "1.2.3.4" 6).isSome = true ∧
    issuedBits 0 (gatedState macDemo (fun _ => [0]) (fun _ => 0) (fun _ => 0)
        "1.2.3.4" 6) "1.2.3.4" = some 17 ∧
    issuedBits 0 (gatedState macDemo (fun _ => [0]) (fun _ => 0) (fun _ => 0)
        "1.2.3.4" 7) "1.2.3.4" = some 18 :=
  ⟨((c2_rapid_succession_difficulty macDemo (fun _ => [0]) (fun _ => 0)
        (fun _ => 0) "1.2.3.4" 9 (fun i j _ _ => by show (0:Nat) - 0 < 30; decide) 6
        (by omega)).2.1 (by omega)).1,
   ((c2_rapid_succession_difficulty macDemo (fun _ => [0]) (fun _ => 0)
        (fun _ => 0) "1.2.3.4" 9 (fun i j _ _ => by show (0:Nat) - 0 < 30; decide) 6
        (by omega)).2.1 (by omega)).2,
   ((c2_rapid_succession_difficulty macDemo (fun _ => [0]) (fun _ => 0)
        (fun _ => 0) "1.2.3.4" 9 (fun i j _ _ => by show (0:Nat) - 0 < 30; decide) 7
        (by omega)).2.1 (by omega)).2⟩

lemma WF_of_transactions_eq {st st2 : PowTable}
    (h : st2.transactions = st.transactions) (hwf : WF st) : WF st2 := by
  intro p hp
  exact hwf p (h ▸ hp)

lemma WF_ainsert {st : PowTable} (hwf : WF st) {ip : String} {w : List Nat}
    (hw : w.length ≤ 32) :
    ∀ p ∈ ainsert ip w st.transactions, (p.2 : List Nat).length ≤ 32 := by
  intro p hp
  rcases List.mem_cons.mp hp with rfl | hp
  · exact hw
  · exact hwf p (List.mem_of_mem_filter hp)

/-- Whatever branch `get_txcount` takes, the transactions map is either left
alone or updated at `ip` with a window of at most 32 entries. -/
lemma get_txcount_window_bound (now : Nat) (st : PowTable) (ip : String)
    (add : Bool) :
    (get_txcount now st ip add).2.transactions = st.transactions ∨
    ∃ w, w.length ≤ 32 ∧
      (get_txcount now st ip add).2.transactions = ainsert ip w st.transactions := by
  rcases hlook : alookup ip st.transactions with _ | w
  · cases add
    · left
      simp [get_txcount, hlook]
    · right
      exact ⟨[now], by simp, by simp [get_txcount, hlook]⟩
  · cases add
    · left
      simp [get_txcount, hlook]
    · right
      by_cases h32 : (w.filter (isLive now)).length < 32
      · refine ⟨w.filter (isLive now) ++ [now], ?_,
          by simp [get_txcount, hlook, h32]⟩
        simp only [List.length_append, List.length_singleton]
        omega
      · refine ⟨(List.insertionSort (· ≤ ·) (w.filter (isLive now))).take 31
            ++ [now], ?_, by simp [get_txcount, hlook, h32]⟩
        simp only [List.length_append, List.length_singleton,
          List.length_take, List.length_insertionSort]
        omega

lemma WF_get_txcount {now : Nat} {st : PowTable} {ip : String} {add : Bool}
    (hwf : WF st) : WF (get_txcount now st ip add).2 := by
  rcases get_txcount_window_bound now st ip add with h | ⟨w, hw, h⟩
  · exact WF_of_transactions_eq h hwf
  · intro p hp
    rw [h] at hp
    exact WF_ainsert hwf hw p hp

lemma validate_pow_transactions (mac : String → String → String)
    (st : PowTable) (ip ch sec : String) :
    (validate_pow mac st ip ch sec).2.transactions = st.transactions := by
  unfold validate_pow
  rcases alookup ch st.challenges with _ | entry
  · rfl
  · by_cases hip : entry.client_ip ≠ ip
    · simp [hip]
    · by_cases hm : mac (hexEncode entry.key) sec = ch
      · simp [hip, hm]
      · simp [hip, hm]

lemma WF_handle (mac : String → String → String) (kv : List Nat)
    (sv now : Nat) (st : PowTable) (ip : String) (ch sec : Option String)
    (hwf : WF st) : WF (handle mac kv sv now st ip ch sec).2 := by
  rcases ch with _ | ch
  · have htr := get_challenge_transactions mac kv sv now st ip
    rcases hgc : get_challenge mac kv sv now st ip with ⟨o, st2⟩
    rw [hgc] at htr
    have hwf2 : WF st2 :=
      WF_of_transactions_eq htr
        (WF_get_txcount hwf)
    cases o <;> simpa [handle, hgc] using hwf2
  · rcases sec with _ | sec
    · simpa [handle] using hwf
    · have htr := validate_pow_transactions mac st ip ch sec
      rcases hv : validate_pow mac st ip ch sec with ⟨r, st2⟩
      rw [hv] at htr
      have hwf2 : WF st2 := WF_of_transactions_eq htr hwf
      cases r <;> simpa [handle, hv] using hwf2

/-- C10 — the difficulty is structurally bounded without any clamp: on every
well-formed table (windows of at most 32 slots — an invariant established at
`PowTable.new` and preserved by `get_txcount` and by every `handle` call) the
trailing count `get_txcount` returns is at most 32, hence any difficulty
`get_challenge` selects (`issuedBits`) lies in `[17, 43]` and the brute-force
range `2 ^ bits` computed by `u64::pow(2, bits)` in `generate_pow` stays
below `2 ^ 64`: the overflow flagged in the spec is unreachable through
`get_challenge`. -/
theorem c10_difficulty_bounded_no_overflow :
    (∀ now st ip add, WF st → (get_txcount now st ip add).1 ≤ 32) ∧
    (∀ now st ip b, WF st → issuedBits now st ip = some b →
       17 ≤ b ∧ b ≤ 43 ∧ 2 ^ b < 2 ^ 64) ∧
    WF PowTable.new ∧
    (∀ now st ip add, WF st → WF (get_txcount now st ip add).2) ∧
    (∀ mac kv sv now st ip ch sec, WF st →
       WF (handle mac kv sv now st ip ch sec).2) := by
  have hcount : ∀ now st ip add, WF st → (get_txcount now st ip add).1 ≤ 32 := by
    intro now st ip add hwf
    unfold get_txcount
    rcases hlook : alookup ip st.transactions with _ | w
    · cases add <;> simp
    · have hlen : w.length ≤ 32 := hwf _ (alookup_mem hlook)
      have hfle : (w.filter (isLive now)).length ≤ w.length :=
        List.length_filter_le _ _
      cases add <;> simp <;> omega
  refine ⟨hcount, ?_, ?_, ?_, ?_⟩
  · intro now st ip b hwf hb
    have hc := hcount now st ip true hwf
    by_cases hgt : (get_txcount now st ip true).1 > 5
    · rw [issuedBits_of_gt hgt] at hb
      obtain rfl := (Option.some.inj hb).symm
      refine ⟨by omega, by omega, ?_⟩
      have h1 : (2:Nat) ^ (16 + (get_txcount now st ip true).1 - 5) ≤ 2 ^ 43 :=
        Nat.pow_le_pow_right (by omega) (by omega)
      have h2 : (2:Nat) ^ 43 < 2 ^ 64 := by norm_num
      omega
    · rw [issuedBits_of_le (by omega)] at hb
      cases hb
  · intro p hp
    simp [PowTable.new] at hp
  · intro now st ip add hwf
    exact WF_get_txcount hwf
  · intro mac kv sv now st ip ch sec hwf
    exact WF_handle mac kv sv now st ip ch sec hwf

/-- Closed instance of C10: on a well-formed table with six live entries the
count is within 32 and the issued 17-bit difficulty is in range with
`2 ^ 17 < 2 ^ 64`. -/
theorem c10_difficulty_bounded_no_overflow_witness :
    (get_txcount 0 ⟨[], [("1.2.3.4", [0, 0, 0, 0, 0, 0])]⟩ "1.2.3.4" true).1 ≤ 32 ∧
    (17 ≤ 17 ∧ 17 ≤ 43 ∧ 2 ^ 17 < 2 ^ 64) :=
  ⟨c10_difficulty_bounded_no_overflow.1 0
      ⟨[], [("1.2.3.4", [0, 0, 0, 0, 0, 0])]⟩ "1.2.3.4" true (by decide),
   c10_difficulty_bounded_no_overflow.2.1 0
      ⟨[], [("1.2.3.4", [0, 0, 0, 0, 0, 0])]⟩ "1.2.3.4" 17 (by decide)
      (by decide)⟩

end Tinycomments
